import Mathlib

/-!
# Verification of the daily price consolidation and upsert engine

Shallow embedding of the core of the `btc_oro` repository:

* `src/src/models/schemas.py` — `PriceEntry`, `DailyPriceRecord` (with
  `add_price`, `get_price`, `get_all_prices_for_asset`), `ServiceResponse`;
* `src/src/repositories/repository.py` — `PriceRepository.save_price_record`
  and its per-entry `$pull`/`$push` upsert protocol on the MongoDB document;
* `src/src/services/service.py` — `PriceDataService.fetch_and_store_prices`
  and `_build_daily_record`;
* `src/src/handlers/handler.py` — `PriceHandler.handle_trigger_fetch`.

Python `float` prices and `datetime` timestamps are modelled as exact
integers: none of the verified properties perform arithmetic on them, only
construction, copying and equality.  Python's insertion-ordered `dict` is
modelled as an association list in insertion order (`PricesMap`); the code
only ever creates dictionaries with distinct keys.
-/

/-- One price observation, mirroring `PriceEntry` of `schemas.py`
(fields `hour`, `price_usd`, `timestamp_utc`, `source_api`,
`collection_time_art`).  Pydantic's field validation is modelled separately
by `mkPriceEntry` below. -/
structure PriceEntry where
  hour : Int
  price_usd : Int
  timestamp_utc : Int
  source_api : String
  collection_time_art : Int
deriving DecidableEq, Repr

/-- The `prices` dictionary of a daily document: asset name to list of
entries, in insertion order, as produced by Python's insertion-ordered
`dict`. -/
abbrev PricesMap := List (String × List PriceEntry)

/-- Dictionary read `prices.get(asset)`: the value at the first binding of
the key (Python dictionaries hold each key once). -/
def lookupAsset : PricesMap → String → Option (List PriceEntry)
  | [], _ => none
  | (k, v) :: rest, a => if k = a then some v else lookupAsset rest a

/-- Dictionary write `prices[asset] = v`: replaces the value at the first
binding of the key, or appends a fresh binding at the end (Python dict
insertion order). -/
def setAsset : PricesMap → String → List PriceEntry → PricesMap
  | [], a, v => [(a, v)]
  | (k, w) :: rest, a, v =>
      if k = a then (k, v) :: rest else (k, w) :: setAsset rest a v

/-- The per-asset entry list of the daily record, `prices.get(asset, [])`. -/
def assetEntries (m : PricesMap) (a : String) : List PriceEntry :=
  (lookupAsset m a).getD []

/-- The hours of an entry list. -/
def hoursOf (l : List PriceEntry) : List Int :=
  l.map (fun e => e.hour)

/-- Each hour occurs at most once in the list (the uniqueness invariant of
`DailyPriceRecord`). -/
def hoursNodup (l : List PriceEntry) : Prop :=
  (hoursOf l).Nodup

/-- The list is strictly ascending by `hour` (the ordering invariant of
`DailyPriceRecord`). -/
def hoursStrictSorted (l : List PriceEntry) : Prop :=
  List.Pairwise (· < ·) (hoursOf l)

instance (l : List PriceEntry) : Decidable (hoursNodup l) := by
  unfold hoursNodup
  infer_instance

instance (l : List PriceEntry) : Decidable (hoursStrictSorted l) := by
  unfold hoursStrictSorted
  infer_instance

/-- The entries of the list filed under a given hour. -/
def entriesWithHour (l : List PriceEntry) (h : Int) : List PriceEntry :=
  l.filter (fun e => e.hour == h)

/-- `add_price`'s scan `for i, entry in enumerate(...): if entry.hour ==
price_entry.hour` followed by `self.prices[asset_name][existing_idx] =
price_entry`: replace the first entry whose hour matches, or report `none`
when no entry matches. -/
def replaceFirstHour (e : PriceEntry) : List PriceEntry → Option (List PriceEntry)
  | [] => none
  | x :: xs =>
      if x.hour = e.hour then some (e :: xs)
      else (replaceFirstHour e xs).map (fun l => x :: l)

/-- Python's stable `list.sort(key=lambda e: e.hour)`, modelled by
Mathlib's stable insertion sort. -/
def sortByHour (l : List PriceEntry) : List PriceEntry :=
  List.insertionSort (fun a b => a.hour ≤ b.hour) l

/-- The body of `DailyPriceRecord.add_price` on one asset's entry list:
replace the entry with the matching hour in place, else append the new
entry and re-sort by hour (`schemas.py` lines 306–319). -/
def upsertList (e : PriceEntry) (cur : List PriceEntry) : List PriceEntry :=
  match replaceFirstHour e cur with
  | some l => l
  | none => sortByHour (cur ++ [e])

/-- The daily document, mirroring `DailyPriceRecord` of `schemas.py`
(`date`, `date_art`, `prices`). -/
structure DailyPriceRecord where
  date : String
  date_art : Int
  prices : PricesMap
deriving DecidableEq, Repr

namespace DailyPriceRecord

/-- `DailyPriceRecord.add_price(asset_name, price_entry)`.  The Python
method first ensures the key exists (`self.prices[asset_name] = []`, which
appends the key at the end of the dict when absent) and then mutates that
key's list; both steps together are one `setAsset` of the updated list. -/
def add_price (r : DailyPriceRecord) (asset : String) (e : PriceEntry) :
    DailyPriceRecord :=
  { r with prices := setAsset r.prices asset (upsertList e (assetEntries r.prices asset)) }

/-- `DailyPriceRecord.get_price(asset_name, hour)`. -/
def get_price (r : DailyPriceRecord) (asset : String) (hour : Int) :
    Option PriceEntry :=
  (assetEntries r.prices asset).find? (fun e => e.hour == hour)

/-- `DailyPriceRecord.get_all_prices_for_asset(asset_name)`. -/
def get_all_prices_for_asset (r : DailyPriceRecord) (asset : String) :
    List PriceEntry :=
  assetEntries r.prices asset

end DailyPriceRecord

/-- Pydantic validation of `PriceEntry` (`schemas.py` lines 222–233):
`hour` carries `ge=0, le=23`, and `source_api` must be `coingecko` or
`goldapi`.  `price_usd` is a bare `float` field with **no** constraint:
no positivity or finiteness check exists in the code. -/
def mkPriceEntry (hour price_usd timestamp_utc : Int) (source_api : String)
    (collection_time_art : Int) : Except String PriceEntry :=
  if hour < 0 ∨ 23 < hour then
    Except.error "hour out of range"
  else if source_api ≠ "coingecko" ∧ source_api ≠ "goldapi" then
    Except.error "source_api debe ser uno de: [coingecko, goldapi]"
  else
    Except.ok ⟨hour, price_usd, timestamp_utc, source_api, collection_time_art⟩

/-! ## The persisted upsert protocol (`repository.py`)

`save_price_record` iterates over each `(asset, entry)` of the record and
issues, per entry, a `$pull` of any array element with the same `hour`
followed by a `$push` of the new entry (lines 190–217).  The MongoDB
document's `prices` field is modelled by the same `PricesMap`. -/

/-- Mongo `$pull` of `{"hour": h}` from `prices.asset`: removes every
matching array element; a missing field is left untouched. -/
def pullHour : PricesMap → String → Int → PricesMap
  | [], _, _ => []
  | (k, v) :: rest, a, h =>
      if k = a then (k, v.filter (fun e => e.hour != h)) :: rest
      else (k, v) :: pullHour rest a h

/-- Mongo `$push` of `e` onto `prices.asset`: appends at the end of the
array, creating the field when absent. -/
def pushEntry : PricesMap → String → PriceEntry → PricesMap
  | [], a, e => [(a, [e])]
  | (k, v) :: rest, a, e =>
      if k = a then (k, v ++ [e]) :: rest
      else (k, v) :: pushEntry rest a e

/-- One per-entry upsert of `save_price_record`: `$pull` all elements with
the entry's hour, then `$push` the entry (repository.py lines 195–217). -/
def mongoUpsertEntry (m : PricesMap) (asset : String) (e : PriceEntry) :
    PricesMap :=
  pushEntry (pullHour m asset e.hour) asset e

/-- `PriceRepository.save_price_record` (repository.py lines 161–236),
acting on the persisted `prices` of the record's date.  `collectionAvailable`
models `self.collection is not None`; `outerRaise` models an exception
outside the per-entry loop (e.g. in `model_dump`), caught by the outer
handler; `entryFails asset hour` models an exception inside the per-entry
`try` block, which is logged and swallowed so the entry is skipped. -/
def savePriceRecord (collectionAvailable : Bool) (outerRaise : Bool)
    (entryFails : String → Int → Bool) (record : DailyPriceRecord)
    (db : PricesMap) : Bool × PricesMap :=
  if !collectionAvailable then (false, db)
  else if outerRaise then (false, db)
  else
    (true,
      record.prices.foldl
        (fun acc p =>
          p.2.foldl
            (fun acc2 e =>
              if entryFails p.1 e.hour then acc2
              else mongoUpsertEntry acc2 p.1 e)
            acc)
        db)

/-! ## The fetch-and-store cycle (`service.py`) and the trigger handler

`fetch_and_store_prices` is a stateful orchestration over network calls.
Its environment — the outcomes of those calls — is packaged in `CycleEnv`;
the function below reproduces the control flow of `service.py` lines
61–233 over that environment.  Python's `concurrent.futures.as_completed`
yields results in completion order; the model fixes the submission order
BTC, XAU, which only determines the order (never the content) of the
result dictionary and the error list. -/

/-- The dictionary returned by `_fetch_bitcoin_price` / `_fetch_gold_price`
(`price_usd`, `timestamp_utc`, `source_api`; `collection_time_art` is the
cycle's `now_art`, supplied by the environment). -/
structure FetchedPrice where
  price_usd : Int
  timestamp_utc : Int
  source_api : String
deriving DecidableEq, Repr

/-- The environment of one cycle: the wall clock and the outcomes of every
external call.  `btcResult`/`xauResult` are `None` when the fetch thread
failed (exception or empty data — both paths return `None` in the code).
`repoAvailable` models `self.price_repository is not None`; `saveSucceeds`
the boolean returned by `save_price_record`; `storedDoc` the document read
back by `get_daily_prices`.  `raised` models an unexpected exception
caught by the top-level handler (`service.py` line 225), with
`processedAtRaise` the number of assets already counted when it occurred. -/
structure CycleEnv where
  nowHour : Int
  nowTime : Int
  dateStr : String
  btcResult : Option FetchedPrice
  xauResult : Option FetchedPrice
  repoAvailable : Bool
  saveSucceeds : Bool
  storedDoc : Option DailyPriceRecord
  sheetSendOk : Bool
  telegramSendOk : Bool
  raised : Option String
  processedAtRaise : Nat
deriving Repr

/-- `ServiceResponse` of `schemas.py` (the `timestamp` field, a wall-clock
default, is omitted). -/
structure ServiceResponse where
  success : Bool
  message : String
  records_processed : Nat
  errors : List String
deriving DecidableEq, Repr

/-- The observable outcome of one cycle: the returned response plus the
externally visible effects.  `targetHour` is the value the code computes
for its `target_hour` variable (line 88–89); `builtRecord` the in-memory
document built by `_build_daily_record`; `savedRecord` the record handed to
`save_price_record`; `sheetPayload` the document forwarded to Google
Sheets; `telegramHour` the hour sent in the Telegram notification. -/
structure CycleEffects where
  targetHour : Int
  response : ServiceResponse
  builtRecord : Option DailyPriceRecord
  savedRecord : Option DailyPriceRecord
  sheetPayload : Option DailyPriceRecord
  telegramHour : Option Int
  sheetDelivered : Bool
  telegramDelivered : Bool
deriving DecidableEq, Repr

/-- The successful fetches, in the fixed submission order BTC, XAU
(`service.py` lines 113–124). -/
def fetchedPrices (env : CycleEnv) : List (String × FetchedPrice) :=
  (match env.btcResult with | some f => [("BTC", f)] | none => []) ++
  (match env.xauResult with | some f => [("XAU", f)] | none => [])

/-- The per-asset error strings accumulated for failed fetches
(`service.py` line 126). -/
def fetchErrors (env : CycleEnv) : List String :=
  (match env.btcResult with
   | some _ => []
   | none => ["No se pudo obtener el precio de BTC"]) ++
  (match env.xauResult with
   | some _ => []
   | none => ["No se pudo obtener el precio de XAU"])

/-- `PriceDataService._build_daily_record` (`service.py` lines 336–393):
one `PriceEntry` per fetched asset, all filed under the `target_hour`
argument the service passes in. -/
def buildDailyRecord (dateStr : String) (hourParam : Int)
    (pricesData : List (String × FetchedPrice)) (collectionTime : Int) :
    DailyPriceRecord :=
  { date := dateStr
    date_art := collectionTime
    prices := pricesData.map (fun p =>
      (p.1, [⟨hourParam, p.2.price_usd, p.2.timestamp_utc, p.2.source_api,
              collectionTime⟩])) }

/-- The body of `fetch_and_store_prices` when no unexpected exception is
raised (`service.py` lines 80–223).  Note line 130–135: the record is
built with `current_hour = now_art.hour`, deliberately not with
`target_hour`; the forwarding block runs only in the branches the code
actually forwards in. -/
def runCycle (env : CycleEnv) (targetHourOpt : Option Int) : CycleEffects :=
  let targetHour := targetHourOpt.getD env.nowHour
  let fetched := fetchedPrices env
  let errors := fetchErrors env
  let recordsProcessed := fetched.length
  let built : Option DailyPriceRecord :=
    if fetched.isEmpty then none
    else some (buildDailyRecord env.dateStr env.nowHour fetched env.nowTime)
  let effects : Option DailyPriceRecord × Option DailyPriceRecord × Option Int :=
    match built with
    | none => (none, none, none)
    | some rec =>
      if env.repoAvailable then
        if env.saveSucceeds then
          match env.storedDoc with
          | some doc => (some rec, some doc, some env.nowHour)
          | none => (some rec, none, none)
        else (some rec, none, none)
      else (none, some rec, some env.nowHour)
  let message := "Proceso completado. Precios recolectados: " ++
    toString recordsProcessed ++
    (if errors.isEmpty then "" else ". Errores: " ++ toString errors.length)
  { targetHour := targetHour
    response :=
      { success := decide (recordsProcessed > 0)
        message := message
        records_processed := recordsProcessed
        errors := errors }
    builtRecord := built
    savedRecord := effects.1
    sheetPayload := effects.2.1
    telegramHour := effects.2.2
    sheetDelivered := effects.2.1.isSome && env.sheetSendOk
    telegramDelivered := effects.2.2.isSome && env.telegramSendOk }

/-- `PriceDataService.fetch_and_store_prices` (`service.py` lines 61–233):
the whole body sits in a `try` whose `except` converts any exception into
a failed `ServiceResponse` carrying the exception's description (lines
225–233). -/
def fetch_and_store_prices (env : CycleEnv) (targetHourOpt : Option Int) :
    CycleEffects :=
  match env.raised with
  | some msg =>
    { targetHour := targetHourOpt.getD env.nowHour
      response :=
        { success := false
          message := "Error crítico en el proceso"
          records_processed := env.processedAtRaise
          errors := ["Error crítico en el servicio: " ++ msg] }
      builtRecord := none
      savedRecord := none
      sheetPayload := none
      telegramHour := none
      sheetDelivered := false
      telegramDelivered := false }
  | none => runCycle env targetHourOpt

/-! ## Association-list lemmas -/

theorem lookupAsset_setAsset_self (m : PricesMap) (a : String)
    (v : List PriceEntry) : lookupAsset (setAsset m a v) a = some v := by
  induction m with
  | nil => simp [setAsset, lookupAsset]
  | cons p rest ih =>
    obtain ⟨k, w⟩ := p
    by_cases h : k = a
    · simp [setAsset, h, lookupAsset]
    · simp [setAsset, h, lookupAsset, ih]

theorem lookupAsset_setAsset_ne (m : PricesMap) (a b : String)
    (v : List PriceEntry) (hne : b ≠ a) :
    lookupAsset (setAsset m a v) b = lookupAsset m b := by
  have hne' : a ≠ b := Ne.symm hne
  induction m with
  | nil => simp [setAsset, lookupAsset, hne']
  | cons p rest ih =>
    obtain ⟨k, w⟩ := p
    by_cases h : k = a
    · subst h
      simp [setAsset, lookupAsset, hne']
    · simp [setAsset, h, lookupAsset, ih]

theorem setAsset_setAsset (m : PricesMap) (a : String)
    (v w : List PriceEntry) :
    setAsset (setAsset m a v) a w = setAsset m a w := by
  induction m with
  | nil => simp [setAsset]
  | cons p rest ih =>
    obtain ⟨k, u⟩ := p
    by_cases h : k = a
    · simp [setAsset, h]
    · simp [setAsset, h, ih]

theorem lookupAsset_pullHour_self (m : PricesMap) (a : String) (h : Int) :
    lookupAsset (pullHour m a h) a =
      (lookupAsset m a).map (fun v => v.filter (fun e => e.hour != h)) := by
  induction m with
  | nil => simp [pullHour, lookupAsset]
  | cons p rest ih =>
    obtain ⟨k, w⟩ := p
    by_cases hk : k = a
    · simp [pullHour, hk, lookupAsset]
    · simp [pullHour, hk, lookupAsset, ih]

theorem lookupAsset_pullHour_ne (m : PricesMap) (a b : String) (h : Int)
    (hne : b ≠ a) : lookupAsset (pullHour m a h) b = lookupAsset m b := by
  have hne' : a ≠ b := Ne.symm hne
  induction m with
  | nil => simp [pullHour]
  | cons p rest ih =>
    obtain ⟨k, w⟩ := p
    by_cases hk : k = a
    · subst hk
      simp [pullHour, lookupAsset, hne']
    · simp [pullHour, hk, lookupAsset, ih]

theorem lookupAsset_pushEntry_self (m : PricesMap) (a : String)
    (e : PriceEntry) :
    lookupAsset (pushEntry m a e) a = some ((lookupAsset m a).getD [] ++ [e]) := by
  induction m with
  | nil => simp [pushEntry, lookupAsset]
  | cons p rest ih =>
    obtain ⟨k, w⟩ := p
    by_cases hk : k = a
    · simp [pushEntry, hk, lookupAsset]
    · simp [pushEntry, hk, lookupAsset, ih]

theorem lookupAsset_pushEntry_ne (m : PricesMap) (a b : String)
    (e : PriceEntry) (hne : b ≠ a) :
    lookupAsset (pushEntry m a e) b = lookupAsset m b := by
  have hne' : a ≠ b := Ne.symm hne
  induction m with
  | nil => simp [pushEntry, lookupAsset, hne']
  | cons p rest ih =>
    obtain ⟨k, w⟩ := p
    by_cases hk : k = a
    · subst hk
      simp [pushEntry, lookupAsset, hne']
    · simp [pushEntry, hk, lookupAsset, ih]

/-! ## Lemmas about the in-memory upsert -/

theorem replaceFirstHour_cons (e x : PriceEntry) (xs : List PriceEntry) :
    replaceFirstHour e (x :: xs) =
      if x.hour = e.hour then some (e :: xs)
      else (replaceFirstHour e xs).map (fun l => x :: l) := rfl

theorem replaceFirstHour_eq_none_iff (e : PriceEntry) (l : List PriceEntry) :
    replaceFirstHour e l = none ↔ ∀ x ∈ l, x.hour ≠ e.hour := by
  induction l with
  | nil => simp [replaceFirstHour]
  | cons x xs ih =>
    by_cases hx : x.hour = e.hour
    · simp [replaceFirstHour_cons, hx]
    · simp [replaceFirstHour_cons, hx, ih]

theorem replaceFirstHour_mem (e : PriceEntry) (l l' : List PriceEntry)
    (h : replaceFirstHour e l = some l') : ∀ y ∈ l', y = e ∨ y ∈ l := by
  induction l generalizing l' with
  | nil => simp [replaceFirstHour] at h
  | cons x xs ih =>
    rw [replaceFirstHour_cons] at h
    by_cases hx : x.hour = e.hour
    · rw [if_pos hx, Option.some.injEq] at h
      subst h
      intro y hy
      rcases List.mem_cons.mp hy with hy | hy
      · exact Or.inl hy
      · exact Or.inr (List.mem_cons_of_mem _ hy)
    · rw [if_neg hx, Option.map_eq_some'] at h
      obtain ⟨l₁, h₁, rfl⟩ := h
      intro y hy
      rcases List.mem_cons.mp hy with hy | hy
      · exact Or.inr (by simp [hy])
      · rcases ih l₁ h₁ y hy with h' | h'
        · exact Or.inl h'
        · exact Or.inr (List.mem_cons_of_mem _ h')

theorem replaceFirstHour_exists_hour (e : PriceEntry) (l l' : List PriceEntry)
    (h : replaceFirstHour e l = some l') : ∃ z ∈ l, z.hour = e.hour := by
  induction l generalizing l' with
  | nil => simp [replaceFirstHour] at h
  | cons x xs ih =>
    rw [replaceFirstHour_cons] at h
    by_cases hx : x.hour = e.hour
    · exact ⟨x, by simp, hx⟩
    · rw [if_neg hx, Option.map_eq_some'] at h
      obtain ⟨l₁, h₁, _⟩ := h
      obtain ⟨z, hz, hzh⟩ := ih l₁ h₁
      exact ⟨z, List.mem_cons_of_mem _ hz, hzh⟩

theorem replaceFirstHour_hoursOf (e : PriceEntry) (l l' : List PriceEntry)
    (h : replaceFirstHour e l = some l') : hoursOf l' = hoursOf l := by
  induction l generalizing l' with
  | nil => simp [replaceFirstHour] at h
  | cons x xs ih =>
    rw [replaceFirstHour_cons] at h
    by_cases hx : x.hour = e.hour
    · rw [if_pos hx, Option.some.injEq] at h
      subst h
      simp [hoursOf, hx]
    · rw [if_neg hx, Option.map_eq_some'] at h
      obtain ⟨l₁, h₁, rfl⟩ := h
      simp only [hoursOf, List.map_cons]
      have hrec := ih l₁ h₁
      simp only [hoursOf] at hrec
      rw [hrec]

theorem replaceFirstHour_self (e : PriceEntry) (l : List PriceEntry)
    (hall : ∀ x ∈ l, x.hour = e.hour → x = e)
    (hex : ∃ x ∈ l, x.hour = e.hour) : replaceFirstHour e l = some l := by
  induction l with
  | nil => simp at hex
  | cons x xs ih =>
    by_cases hx : x.hour = e.hour
    · have hxe : x = e := hall x (by simp) hx
      rw [replaceFirstHour_cons, if_pos hx, hxe]
    · obtain ⟨z, hz, hzh⟩ := hex
      rcases List.mem_cons.mp hz with hz | hz
      · exact absurd (hz ▸ hzh) hx
      · have hrec := ih (fun y hy => hall y (List.mem_cons_of_mem _ hy))
          ⟨z, hz, hzh⟩
        rw [replaceFirstHour_cons, if_neg hx, hrec, Option.map_some']

theorem replaceFirstHour_idem (e : PriceEntry) (l l' : List PriceEntry)
    (h : replaceFirstHour e l = some l') : replaceFirstHour e l' = some l' := by
  induction l generalizing l' with
  | nil => simp [replaceFirstHour] at h
  | cons x xs ih =>
    rw [replaceFirstHour_cons] at h
    by_cases hx : x.hour = e.hour
    · rw [if_pos hx, Option.some.injEq] at h
      subst h
      rw [replaceFirstHour_cons, if_pos rfl]
    · rw [if_neg hx, Option.map_eq_some'] at h
      obtain ⟨l₁, h₁, rfl⟩ := h
      rw [replaceFirstHour_cons, if_neg hx, ih l₁ h₁, Option.map_some']

theorem replaceFirstHour_filter (e : PriceEntry) (l l' : List PriceEntry)
    (hnd : hoursNodup l) (h : replaceFirstHour e l = some l') :
    entriesWithHour l' e.hour = [e] := by
  induction l generalizing l' with
  | nil => simp [replaceFirstHour] at h
  | cons x xs ih =>
    have hnd2 : (∀ y ∈ xs, ¬y.hour = x.hour) ∧
        (List.map (fun en => en.hour) xs).Nodup := by
      simpa [hoursNodup, hoursOf] using hnd
    have hnd' : hoursNodup xs := hnd2.2
    rw [replaceFirstHour_cons] at h
    by_cases hx : x.hour = e.hour
    · rw [if_pos hx, Option.some.injEq] at h
      subst h
      have hfil : xs.filter (fun en => en.hour == e.hour) = [] := by
        rw [List.filter_eq_nil_iff]
        intro a ha
        simp only [beq_iff_eq]
        intro hcon
        exact hnd2.1 a ha (hcon.trans hx.symm)
      simp [entriesWithHour, List.filter_cons, hfil]
    · rw [if_neg hx, Option.map_eq_some'] at h
      obtain ⟨l₁, h₁, rfl⟩ := h
      have hrec := ih l₁ hnd' h₁
      simpa [entriesWithHour, List.filter_cons, hx] using hrec

instance : IsTotal PriceEntry (fun a b => a.hour ≤ b.hour) :=
  ⟨fun a b => Int.le_total a.hour b.hour⟩

instance : IsTrans PriceEntry (fun a b => a.hour ≤ b.hour) :=
  ⟨fun _ _ _ h1 h2 => le_trans h1 h2⟩

theorem sortByHour_perm (l : List PriceEntry) : (sortByHour l).Perm l :=
  List.perm_insertionSort _ l

theorem sortByHour_sorted (l : List PriceEntry) :
    List.Pairwise (fun a b : PriceEntry => a.hour ≤ b.hour) (sortByHour l) :=
  List.sorted_insertionSort _ l

theorem upsertList_idem (e : PriceEntry) (l : List PriceEntry) :
    upsertList e (upsertList e l) = upsertList e l := by
  cases hrep : replaceFirstHour e l with
  | some l₁ =>
    have h1 : upsertList e l = l₁ := by unfold upsertList; rw [hrep]
    rw [h1]
    unfold upsertList
    rw [replaceFirstHour_idem e l l₁ hrep]
  | none =>
    have hnone := (replaceFirstHour_eq_none_iff e l).mp hrep
    have h1 : upsertList e l = sortByHour (l ++ [e]) := by
      unfold upsertList; rw [hrep]
    rw [h1]
    have hperm := sortByHour_perm (l ++ [e])
    have hall : ∀ x ∈ sortByHour (l ++ [e]), x.hour = e.hour → x = e := by
      intro x hx hxe
      rcases List.mem_append.mp (hperm.mem_iff.mp hx) with h' | h'
      · exact absurd hxe (hnone x h')
      · simpa using h'
    have hex : ∃ x ∈ sortByHour (l ++ [e]), x.hour = e.hour :=
      ⟨e, hperm.mem_iff.mpr (by simp), rfl⟩
    unfold upsertList
    rw [replaceFirstHour_self e _ hall hex]

theorem entriesWithHour_upsertList (e : PriceEntry) (l : List PriceEntry)
    (hnd : hoursNodup l) : entriesWithHour (upsertList e l) e.hour = [e] := by
  cases hrep : replaceFirstHour e l with
  | some l₁ =>
    have h1 : upsertList e l = l₁ := by unfold upsertList; rw [hrep]
    rw [h1]
    exact replaceFirstHour_filter e l l₁ hnd hrep
  | none =>
    have hnone := (replaceFirstHour_eq_none_iff e l).mp hrep
    have h1 : upsertList e l = sortByHour (l ++ [e]) := by
      unfold upsertList; rw [hrep]
    rw [h1]
    have hfil : entriesWithHour (l ++ [e]) e.hour = [e] := by
      unfold entriesWithHour
      rw [List.filter_append]
      have h2 : l.filter (fun en => en.hour == e.hour) = [] := by
        rw [List.filter_eq_nil_iff]
        intro a ha
        simpa using hnone a ha
      simp [h2]
    have hp : (entriesWithHour (sortByHour (l ++ [e])) e.hour).Perm
        (entriesWithHour (l ++ [e]) e.hour) :=
      (sortByHour_perm (l ++ [e])).filter _
    rw [hfil] at hp
    exact List.perm_singleton.mp hp

theorem hoursNodup_append_new (e : PriceEntry) (l : List PriceEntry)
    (hnd : hoursNodup l) (hnew : ∀ x ∈ l, x.hour ≠ e.hour) :
    (hoursOf (l ++ [e])).Nodup := by
  unfold hoursOf
  rw [List.map_append]
  apply List.Nodup.append hnd (by simp)
  intro a ha hb
  simp only [List.map_cons, List.map_nil, List.mem_singleton] at hb
  subst hb
  obtain ⟨x, hx, hxe⟩ := List.mem_map.mp ha
  exact hnew x hx hxe

theorem hoursNodup_upsertList (e : PriceEntry) (l : List PriceEntry)
    (hnd : hoursNodup l) : hoursNodup (upsertList e l) := by
  cases hrep : replaceFirstHour e l with
  | some l₁ =>
    have h1 : upsertList e l = l₁ := by unfold upsertList; rw [hrep]
    rw [h1]
    unfold hoursNodup
    rw [replaceFirstHour_hoursOf e l l₁ hrep]
    exact hnd
  | none =>
    have hnone := (replaceFirstHour_eq_none_iff e l).mp hrep
    have h1 : upsertList e l = sortByHour (l ++ [e]) := by
      unfold upsertList; rw [hrep]
    rw [h1]
    unfold hoursNodup
    have hperm : (hoursOf (sortByHour (l ++ [e]))).Perm (hoursOf (l ++ [e])) :=
      (sortByHour_perm (l ++ [e])).map _
    exact hperm.nodup_iff.mpr (hoursNodup_append_new e l hnd hnone)

theorem hoursStrictSorted_upsertList (e : PriceEntry) (l : List PriceEntry)
    (hs : hoursStrictSorted l) : hoursStrictSorted (upsertList e l) := by
  cases hrep : replaceFirstHour e l with
  | some l₁ =>
    have h1 : upsertList e l = l₁ := by unfold upsertList; rw [hrep]
    rw [h1]
    unfold hoursStrictSorted
    rw [replaceFirstHour_hoursOf e l l₁ hrep]
    exact hs
  | none =>
    have hnone := (replaceFirstHour_eq_none_iff e l).mp hrep
    have hnd : hoursNodup l := List.Pairwise.imp (fun h => ne_of_lt h) hs
    have h1 : upsertList e l = sortByHour (l ++ [e]) := by
      unfold upsertList; rw [hrep]
    rw [h1]
    have hndS : (hoursOf (sortByHour (l ++ [e]))).Nodup :=
      (((sortByHour_perm (l ++ [e])).map _).nodup_iff).mpr
        (hoursNodup_append_new e l hnd hnone)
    have hsorted := sortByHour_sorted (l ++ [e])
    unfold hoursStrictSorted hoursOf
    rw [List.pairwise_map]
    have hne : List.Pairwise (fun a b : PriceEntry => a.hour ≠ b.hour)
        (sortByHour (l ++ [e])) := by
      unfold hoursOf at hndS
      rw [List.Nodup, List.pairwise_map] at hndS
      exact hndS
    exact (hsorted.and hne).imp (fun h => lt_of_le_of_ne h.1 h.2)

/-- The `hour` query parameter as seen by the handler: absent, present but
not an integer (`int(...)` raises `ValueError`), or a parsed integer. -/
inductive HourParam where
  | absent
  | invalid (raw : String)
  | given (n : Int)
deriving DecidableEq, Repr

/-- The handler's reply: HTTP status plus, when the service was invoked,
the cycle's outcome (`none` means the service was never called). -/
structure HandlerResponse where
  status : Nat
  effects : Option CycleEffects
deriving DecidableEq, Repr

/-- `PriceHandler.handle_trigger_fetch` (`handler.py` lines 29–82): a
non-integer `hour` parameter is rejected with status 400 before the
service runs; otherwise the service is called with the parsed hour (or
`None`) and the status is 200 on success, 500 on failure. -/
def handle_trigger_fetch (env : CycleEnv) (p : HourParam) : HandlerResponse :=
  match p with
  | .invalid _ => { status := 400, effects := none }
  | .absent =>
    let eff := fetch_and_store_prices env none
    { status := if eff.response.success then 200 else 500, effects := some eff }
  | .given n =>
    let eff := fetch_and_store_prices env (some n)
    { status := if eff.response.success then 200 else 500, effects := some eff }

/-! ## Further shared lemmas -/

theorem filter_hour_filter_ne (v : List PriceEntry) (h H : Int) (hne : h ≠ H) :
    (v.filter (fun x => x.hour != H)).filter (fun x => x.hour == h) =
      v.filter (fun x => x.hour == h) := by
  induction v with
  | nil => rfl
  | cons x xs ih =>
    by_cases h1 : x.hour = H
    · have hH : ¬(H = h) := fun hc => hne hc.symm
      have hxh : (x.hour == h) = false := by
        simp only [beq_eq_false_iff_ne]
        rw [h1]
        exact fun hc => hne hc.symm
      simp [List.filter_cons, h1, hxh, hH, ih]
    · simp only [List.filter_cons, bne_iff_ne, ne_eq, h1, not_false_eq_true,
        if_true, ite_not]
      by_cases h2 : x.hour = h
      · simp [List.filter_cons, h2, ih]
      · simp [List.filter_cons, h2, ih]

theorem filter_hour_of_pulled (v : List PriceEntry) (H : Int) :
    (v.filter (fun x => x.hour != H)).filter (fun x => x.hour == H) = [] := by
  rw [List.filter_eq_nil_iff]
  intro a ha
  have := List.of_mem_filter ha
  simpa using this

theorem assetEntries_mongoUpsertEntry_self (m : PricesMap) (A : String)
    (e : PriceEntry) :
    assetEntries (mongoUpsertEntry m A e) A =
      (assetEntries m A).filter (fun x => x.hour != e.hour) ++ [e] := by
  unfold assetEntries mongoUpsertEntry
  rw [lookupAsset_pushEntry_self, lookupAsset_pullHour_self]
  cases hlk : lookupAsset m A <;> simp

theorem assetEntries_mongoUpsertEntry_ne (m : PricesMap) (A a : String)
    (e : PriceEntry) (hne : a ≠ A) :
    assetEntries (mongoUpsertEntry m A e) a = assetEntries m a := by
  unfold assetEntries mongoUpsertEntry
  rw [lookupAsset_pushEntry_ne _ _ _ _ hne, lookupAsset_pullHour_ne _ _ _ _ hne]

theorem hoursNodup_pullPush (v : List PriceEntry) (e : PriceEntry)
    (hnd : hoursNodup v) :
    hoursNodup (v.filter (fun x => x.hour != e.hour) ++ [e]) := by
  have hsub : hoursNodup (v.filter (fun x => x.hour != e.hour)) := by
    unfold hoursNodup hoursOf
    exact hnd.sublist ((v.filter_sublist).map _)
  have hnew : ∀ x ∈ v.filter (fun x => x.hour != e.hour), x.hour ≠ e.hour := by
    intro x hx
    have := List.of_mem_filter hx
    simpa using this
  exact hoursNodup_append_new e _ hsub hnew

theorem assetEntries_add_price_self (r : DailyPriceRecord) (A : String)
    (e : PriceEntry) :
    assetEntries (r.add_price A e).prices A =
      upsertList e (assetEntries r.prices A) := by
  unfold DailyPriceRecord.add_price
  unfold assetEntries
  rw [lookupAsset_setAsset_self]
  rfl

theorem assetEntries_add_price_ne (r : DailyPriceRecord) (A a : String)
    (e : PriceEntry) (hne : a ≠ A) :
    assetEntries (r.add_price A e).prices a = assetEntries r.prices a := by
  unfold DailyPriceRecord.add_price
  unfold assetEntries
  rw [lookupAsset_setAsset_ne _ _ _ _ hne]

/-! ## Claim theorems -/

/-- **C1.**  For every persisted daily document and every per-entry upsert
of `save_price_record` — `$pull` any array element of asset `A` with the
entry's hour, then `$push` the entry — the resulting document holds exactly
one entry for `(A, e.hour)`, namely the new entry, and the entries filed
under every other `(asset, hour)` pair are unchanged, field for field. -/
theorem mongo_upsert_exactly_one_and_frame (m : PricesMap) (A : String)
    (e : PriceEntry) :
    entriesWithHour (assetEntries (mongoUpsertEntry m A e) A) e.hour = [e]
    ∧ ∀ a h, ¬(a = A ∧ h = e.hour) →
        entriesWithHour (assetEntries (mongoUpsertEntry m A e) a) h =
          entriesWithHour (assetEntries m a) h := by
  constructor
  · rw [assetEntries_mongoUpsertEntry_self]
    unfold entriesWithHour
    rw [List.filter_append, filter_hour_of_pulled]
    simp
  · intro a h hne
    by_cases haA : a = A
    · subst haA
      have hh : h ≠ e.hour := fun hc => hne ⟨rfl, hc⟩
      rw [assetEntries_mongoUpsertEntry_self]
      unfold entriesWithHour
      rw [List.filter_append, filter_hour_filter_ne _ _ _ hh]
      have he : ¬(e.hour = h) := fun hc => hh hc.symm
      have hnil : ([e].filter (fun x => x.hour == h)) = [] := by
        simp [List.filter_cons, he]
      rw [hnil, List.append_nil]
    · rw [assetEntries_mongoUpsertEntry_ne _ _ _ _ haA]

/-- Witness for C1 at a concrete document: asset `BTC` holds hour 10; the
upsert of an hour-17 entry yields exactly that entry at hour 17 and leaves
the hour-10 entry untouched. -/
theorem mongo_upsert_exactly_one_and_frame_witness :
    entriesWithHour
      (assetEntries
        (mongoUpsertEntry [("BTC", [⟨10, 43250, 1, "coingecko", 1⟩])]
          "BTC" ⟨17, 43400, 2, "coingecko", 2⟩) "BTC") 17 =
      [⟨17, 43400, 2, "coingecko", 2⟩]
    ∧ entriesWithHour
        (assetEntries
          (mongoUpsertEntry [("BTC", [⟨10, 43250, 1, "coingecko", 1⟩])]
            "BTC" ⟨17, 43400, 2, "coingecko", 2⟩) "BTC") 10 =
      entriesWithHour
        (assetEntries [("BTC", [(⟨10, 43250, 1, "coingecko", 1⟩ : PriceEntry)])]
          "BTC") 10 :=
  ⟨(mongo_upsert_exactly_one_and_frame _ "BTC" ⟨17, 43400, 2, "coingecko", 2⟩).1,
   (mongo_upsert_exactly_one_and_frame _ "BTC" ⟨17, 43400, 2, "coingecko", 2⟩).2
     "BTC" 10 (by decide)⟩

/-- **C2.**  `DailyPriceRecord.add_price` is an idempotent upsert: applying
`add_price(A, e)` twice yields exactly the state of applying it once (for
*every* record state, duplicates or not), and on any record state whose
asset list satisfies the model's hour-uniqueness invariant the asset ends
up holding exactly one entry for `e.hour`, equal to `e` — in particular an
existing entry with a different price at that hour is overwritten with no
trace left, and no duplicate entries arise (hour-uniqueness is
preserved). -/
theorem add_price_idempotent_overwrite (r : DailyPriceRecord) (A : String)
    (e : PriceEntry) :
    (r.add_price A e).add_price A e = r.add_price A e
    ∧ (hoursNodup (assetEntries r.prices A) →
        entriesWithHour (assetEntries (r.add_price A e).prices A) e.hour = [e])
    ∧ (hoursNodup (assetEntries r.prices A) →
        hoursNodup (assetEntries (r.add_price A e).prices A)) := by
  refine ⟨?_, ?_, ?_⟩
  · unfold DailyPriceRecord.add_price
    have h1 : assetEntries
        (setAsset r.prices A (upsertList e (assetEntries r.prices A))) A =
        upsertList e (assetEntries r.prices A) := by
      unfold assetEntries
      rw [lookupAsset_setAsset_self]
      rfl
    simp only [h1, upsertList_idem, setAsset_setAsset]
  · intro hnd
    rw [assetEntries_add_price_self]
    exact entriesWithHour_upsertList e _ hnd
  · intro hnd
    rw [assetEntries_add_price_self]
    exact hoursNodup_upsertList e _ hnd

/-- Witness for C2 at a concrete record: asset `BTC` holds hour 10 at price
100; upserting an hour-10 entry at price 200 twice equals upserting once,
and the asset holds exactly the new entry at hour 10. -/
theorem add_price_idempotent_overwrite_witness :
    ((⟨"2025-10-24", 0, [("BTC", [⟨10, 100, 0, "coingecko", 0⟩])]⟩ :
        DailyPriceRecord).add_price "BTC" ⟨10, 200, 1, "coingecko", 1⟩).add_price
        "BTC" ⟨10, 200, 1, "coingecko", 1⟩ =
      (⟨"2025-10-24", 0, [("BTC", [⟨10, 100, 0, "coingecko", 0⟩])]⟩ :
        DailyPriceRecord).add_price "BTC" ⟨10, 200, 1, "coingecko", 1⟩
    ∧ entriesWithHour
        (assetEntries
          ((⟨"2025-10-24", 0, [("BTC", [⟨10, 100, 0, "coingecko", 0⟩])]⟩ :
            DailyPriceRecord).add_price "BTC"
            ⟨10, 200, 1, "coingecko", 1⟩).prices "BTC") 10 =
      [⟨10, 200, 1, "coingecko", 1⟩] :=
  ⟨(add_price_idempotent_overwrite _ "BTC" ⟨10, 200, 1, "coingecko", 1⟩).1,
   (add_price_idempotent_overwrite _ "BTC" ⟨10, 200, 1, "coingecko", 1⟩).2.1
     (by decide)⟩

/-- **C3 (counterexample).**  The claim asserts sortedness after any
sequence of upserts including the persisted remove-then-append protocol of
`save_price_record`.  Starting from an empty persisted document and
applying that protocol with hours 10, 17, then 12 leaves asset `BTC`'s
array with hours `[10, 17, 12]`: Mongo's `$push` appends at the tail and no
`$sort` is issued, so the persisted list is *not* sorted ascending by
hour. -/
theorem persisted_upsert_not_sorted_cex :
    assetEntries
        (mongoUpsertEntry
          (mongoUpsertEntry
            (mongoUpsertEntry [] "BTC" ⟨10, 1, 1, "coingecko", 1⟩)
            "BTC" ⟨17, 2, 2, "coingecko", 2⟩)
          "BTC" ⟨12, 3, 3, "coingecko", 3⟩)
        "BTC" =
      [⟨10, 1, 1, "coingecko", 1⟩, ⟨17, 2, 2, "coingecko", 2⟩,
       ⟨12, 3, 3, "coingecko", 3⟩]
    ∧ ¬ hoursStrictSorted
        (assetEntries
          (mongoUpsertEntry
            (mongoUpsertEntry
              (mongoUpsertEntry [] "BTC" ⟨10, 1, 1, "coingecko", 1⟩)
              "BTC" ⟨17, 2, 2, "coingecko", 2⟩)
            "BTC" ⟨12, 3, 3, "coingecko", 3⟩)
          "BTC") := by
  constructor
  · decide
  · decide

/-- **C3 (amended).**  Per upsert step and per asset: the in-memory
`add_price` preserves strict ascending hour order (and hence hour
uniqueness) of the asset's list, and the persisted remove-then-append
protocol preserves hour uniqueness of the asset's array — but not
sortedness, which the counterexample refutes ($push appends at the tail).
Closure under any sequence of upserts follows stepwise, each step
re-establishing the stated invariant from the previous one. -/
theorem upsert_invariant_preservation (r : DailyPriceRecord) (m : PricesMap)
    (A a : String) (e : PriceEntry) :
    (hoursStrictSorted (assetEntries r.prices a) →
      hoursStrictSorted (assetEntries (r.add_price A e).prices a))
    ∧ (hoursNodup (assetEntries m a) →
      hoursNodup (assetEntries (mongoUpsertEntry m A e) a)) := by
  constructor
  · intro hs
    by_cases haA : a = A
    · subst haA
      rw [assetEntries_add_price_self]
      exact hoursStrictSorted_upsertList e _ hs
    · rw [assetEntries_add_price_ne _ _ _ _ haA]
      exact hs
  · intro hnd
    by_cases haA : a = A
    · subst haA
      rw [assetEntries_mongoUpsertEntry_self]
      exact hoursNodup_pullPush _ e hnd
    · rw [assetEntries_mongoUpsertEntry_ne _ _ _ _ haA]
      exact hnd

/-- Witness for the amended C3 at concrete states: an in-memory list with
hours 10, 17 stays strictly sorted after upserting hour 12, and a persisted
array with hours 10, 17 keeps unique hours after the remove-then-append of
hour 12. -/
theorem upsert_invariant_preservation_witness :
    hoursStrictSorted
      (assetEntries
        ((⟨"2025-10-24", 0,
            [("BTC", [⟨10, 1, 1, "coingecko", 1⟩, ⟨17, 2, 2, "coingecko", 2⟩])]⟩ :
          DailyPriceRecord).add_price "BTC" ⟨12, 3, 3, "coingecko", 3⟩).prices
        "BTC")
    ∧ hoursNodup
        (assetEntries
          (mongoUpsertEntry
            [("BTC", [⟨10, 1, 1, "coingecko", 1⟩, ⟨17, 2, 2, "coingecko", 2⟩])]
            "BTC" ⟨12, 3, 3, "coingecko", 3⟩)
          "BTC") :=
  ⟨(upsert_invariant_preservation _
      [("BTC", [⟨10, 1, 1, "coingecko", 1⟩, ⟨17, 2, 2, "coingecko", 2⟩])]
      "BTC" "BTC" ⟨12, 3, 3, "coingecko", 3⟩).1 (by decide),
   (upsert_invariant_preservation
      ⟨"2025-10-24", 0,
        [("BTC", [⟨10, 1, 1, "coingecko", 1⟩, ⟨17, 2, 2, "coingecko", 2⟩])]⟩
      _ "BTC" "BTC" ⟨12, 3, 3, "coingecko", 3⟩).2 (by decide)⟩

theorem lookup_buildPrices_hour (hp ct : Int)
    (pd : List (String × FetchedPrice)) (a : String) :
    ∀ en ∈ (lookupAsset
        (pd.map (fun p =>
          (p.1, [(⟨hp, p.2.price_usd, p.2.timestamp_utc, p.2.source_api, ct⟩ :
            PriceEntry)])))
        a).getD [], en.hour = hp := by
  induction pd with
  | nil => simp [lookupAsset]
  | cons p rest ih =>
    intro en hen
    simp only [List.map_cons, lookupAsset] at hen
    by_cases hk : p.1 = a
    · rw [if_pos hk] at hen
      simp only [Option.getD_some, List.mem_singleton] at hen
      rw [hen]
    · rw [if_neg hk] at hen
      exact ih en hen

theorem buildDailyRecord_hour (d : String) (hp : Int)
    (pd : List (String × FetchedPrice)) (ct : Int) (a : String) :
    ∀ en ∈ assetEntries (buildDailyRecord d hp pd ct).prices a, en.hour = hp := by
  intro en hen
  unfold buildDailyRecord assetEntries at hen
  exact lookup_buildPrices_hour hp ct pd a en hen

/-- **C4 (counterexample).**  The claim says an explicit hour parameter `h`
is the hour under which fetched entries are filed.  In a cycle whose
current hour is 14, invoked with explicit hour 5, the code computes
`target_hour = 5` but files the fetched BTC entry under hour 14
(`service.py` line 130–135 deliberately uses `now_art.hour`), refuting the
claim. -/
theorem explicit_hour_not_used_for_filing_cex :
    (fetch_and_store_prices
        ⟨14, 0, "2025-10-24", some ⟨100, 0, "coingecko"⟩, none, false, false,
          none, true, true, none, 0⟩ (some 5)).targetHour = 5
    ∧ (fetch_and_store_prices
        ⟨14, 0, "2025-10-24", some ⟨100, 0, "coingecko"⟩, none, false, false,
          none, true, true, none, 0⟩ (some 5)).builtRecord =
      some ⟨"2025-10-24", 0, [("BTC", [⟨14, 100, 0, "coingecko", 0⟩])]⟩
    ∧ (5 : Int) ≠ 14 := by
  refine ⟨rfl, rfl, by decide⟩

/-- **C4 (amended).**  The cycle computes `target_hour` as the explicit
parameter when supplied (else the current hour), but that value never
affects the observable outcome: the built document, response, forwarded
payload and notification hour are those of a parameterless invocation, and
every entry of the built document is filed under the *current* hour of the
cycle's clock. -/
theorem filing_hour_is_current_hour (env : CycleEnv) (hOpt : Option Int) :
    (fetch_and_store_prices env hOpt).targetHour = hOpt.getD env.nowHour
    ∧ (fetch_and_store_prices env hOpt).builtRecord =
        (fetch_and_store_prices env none).builtRecord
    ∧ (fetch_and_store_prices env hOpt).response =
        (fetch_and_store_prices env none).response
    ∧ (fetch_and_store_prices env hOpt).sheetPayload =
        (fetch_and_store_prices env none).sheetPayload
    ∧ (fetch_and_store_prices env hOpt).telegramHour =
        (fetch_and_store_prices env none).telegramHour
    ∧ ∀ a en, en ∈ assetEntries
        ((fetch_and_store_prices env hOpt).builtRecord.getD ⟨"", 0, []⟩).prices
        a → en.hour = env.nowHour := by
  obtain ⟨nh, nt, ds, br, xr, ra, ss, sd, so, to2, raised, par⟩ := env
  cases raised with
  | some msg =>
    refine ⟨rfl, rfl, rfl, rfl, rfl, ?_⟩
    intro a en hen
    simp [fetch_and_store_prices, assetEntries, lookupAsset] at hen
  | none =>
    refine ⟨rfl, rfl, rfl, rfl, rfl, ?_⟩
    intro a en hen
    simp only [fetch_and_store_prices, runCycle] at hen
    by_cases hemp : (fetchedPrices
        ⟨nh, nt, ds, br, xr, ra, ss, sd, so, to2, none, par⟩).isEmpty
    · rw [if_pos hemp] at hen
      simp [assetEntries, lookupAsset] at hen
    · rw [if_neg hemp] at hen
      simp only [Option.getD_some] at hen
      exact buildDailyRecord_hour _ _ _ _ a en hen

/-- Witness for the amended C4: a cycle at current hour 14 invoked with
explicit hour 5 files its single BTC entry under hour 14. -/
theorem filing_hour_is_current_hour_witness :
    (⟨14, 100, 0, "coingecko", 0⟩ : PriceEntry).hour = (14 : Int) :=
  (filing_hour_is_current_hour
      ⟨14, 0, "2025-10-24", some ⟨100, 0, "coingecko"⟩, none, false, false,
        none, true, true, none, 0⟩ (some 5)).2.2.2.2.2
    "BTC" ⟨14, 100, 0, "coingecko", 0⟩ (by decide)

/-- **C5 (counterexample).**  The claim says an explicit hour outside 0–23
(e.g. 24) is rejected with an `InvalidHourError` and no fetch, persistence
or forwarding happens.  No such error exists in the code: invoked with
`hour=24`, the handler parses the integer and the cycle runs fully —
a document is built from the fetches, handed to persistence, forwarded,
and the call returns success with HTTP 200. -/
theorem hour_24_not_rejected_cex :
    (handle_trigger_fetch
        ⟨14, 0, "2025-10-24", some ⟨100, 0, "coingecko"⟩,
          some ⟨50, 0, "goldapi"⟩, true, true,
          some ⟨"2025-10-24", 0, [("BTC", [⟨14, 100, 0, "coingecko", 0⟩])]⟩,
          true, true, none, 0⟩ (.given 24)).status = 200
    ∧ (fetch_and_store_prices
        ⟨14, 0, "2025-10-24", some ⟨100, 0, "coingecko"⟩,
          some ⟨50, 0, "goldapi"⟩, true, true,
          some ⟨"2025-10-24", 0, [("BTC", [⟨14, 100, 0, "coingecko", 0⟩])]⟩,
          true, true, none, 0⟩ (some 24)).builtRecord.isSome = true
    ∧ (fetch_and_store_prices
        ⟨14, 0, "2025-10-24", some ⟨100, 0, "coingecko"⟩,
          some ⟨50, 0, "goldapi"⟩, true, true,
          some ⟨"2025-10-24", 0, [("BTC", [⟨14, 100, 0, "coingecko", 0⟩])]⟩,
          true, true, none, 0⟩ (some 24)).savedRecord.isSome = true
    ∧ (fetch_and_store_prices
        ⟨14, 0, "2025-10-24", some ⟨100, 0, "coingecko"⟩,
          some ⟨50, 0, "goldapi"⟩, true, true,
          some ⟨"2025-10-24", 0, [("BTC", [⟨14, 100, 0, "coingecko", 0⟩])]⟩,
          true, true, none, 0⟩ (some 24)).sheetPayload.isSome = true
    ∧ (fetch_and_store_prices
        ⟨14, 0, "2025-10-24", some ⟨100, 0, "coingecko"⟩,
          some ⟨50, 0, "goldapi"⟩, true, true,
          some ⟨"2025-10-24", 0, [("BTC", [⟨14, 100, 0, "coingecko", 0⟩])]⟩,
          true, true, none, 0⟩ (some 24)).response.success = true :=
  ⟨rfl, rfl, rfl, rfl, rfl⟩

/-- **C5 (amended).**  An out-of-range integer hour is accepted: the
service is invoked with it and behaves exactly as a parameterless
invocation (the value is never used observably).  Only a syntactically
non-integer `hour` parameter is rejected, with HTTP 400 and the service
never invoked; no `InvalidHourError` exists. -/
theorem out_of_range_hour_accepted (env : CycleEnv) (raw : String) :
    (handle_trigger_fetch env (.given 24)).effects =
        some (fetch_and_store_prices env (some 24))
    ∧ (fetch_and_store_prices env (some 24)).response =
        (fetch_and_store_prices env none).response
    ∧ (fetch_and_store_prices env (some 24)).builtRecord =
        (fetch_and_store_prices env none).builtRecord
    ∧ (fetch_and_store_prices env (some 24)).savedRecord =
        (fetch_and_store_prices env none).savedRecord
    ∧ (fetch_and_store_prices env (some 24)).sheetPayload =
        (fetch_and_store_prices env none).sheetPayload
    ∧ (handle_trigger_fetch env (.invalid raw)).status = 400
    ∧ (handle_trigger_fetch env (.invalid raw)).effects = none := by
  obtain ⟨nh, nt, ds, br, xr, ra, ss, sd, so, to2, raised, par⟩ := env
  cases raised with
  | some msg => exact ⟨rfl, rfl, rfl, rfl, rfl, rfl, rfl⟩
  | none => exact ⟨rfl, rfl, rfl, rfl, rfl, rfl, rfl⟩

/-- **C6 (counterexample).**  The claim says non-positive prices are
rejected with a `NormalizationError` and can never be filed into a daily
record.  No such check exists: `PriceEntry` validation accepts a price of
−5 (only `hour` range and `source_api` membership are validated) and
`add_price` files the entry into the record. -/
theorem nonpositive_price_accepted_cex :
    mkPriceEntry 10 (-5) 0 "coingecko" 0 =
      Except.ok ⟨10, -5, 0, "coingecko", 0⟩
    ∧ assetEntries
        ((DailyPriceRecord.add_price ⟨"2025-10-24", 0, []⟩ "BTC"
          ⟨10, -5, 0, "coingecko", 0⟩).prices) "BTC" =
      [⟨10, -5, 0, "coingecko", 0⟩]
    ∧ (-5 : Int) ≤ 0 := by
  refine ⟨rfl, by decide, by decide⟩

/-- **C6 (amended).**  `PriceEntry` validation rejects exactly the
out-of-range hours and unknown sources; any price value — including zero
and negative ones — is accepted unchanged, and there is no
price-positivity or finiteness rejection anywhere. -/
theorem price_entry_validation_scope (hour price ts : Int) (src : String)
    (ct : Int) :
    (0 ≤ hour → hour ≤ 23 → (src = "coingecko" ∨ src = "goldapi") →
      mkPriceEntry hour price ts src ct =
        Except.ok ⟨hour, price, ts, src, ct⟩)
    ∧ (hour < 0 ∨ 23 < hour →
        ∃ msg, mkPriceEntry hour price ts src ct = Except.error msg) := by
  constructor
  · intro h0 h23 hsrc
    unfold mkPriceEntry
    rw [if_neg, if_neg]
    · rcases hsrc with h | h <;> simp [h]
    · push_neg
      exact ⟨h0, h23⟩
  · intro hbad
    refine ⟨"hour out of range", ?_⟩
    unfold mkPriceEntry
    rw [if_pos hbad]

/-- Witness for the amended C6: an in-range hour with a known source and a
*negative* price is accepted by validation. -/
theorem price_entry_validation_scope_witness :
    mkPriceEntry 10 (-5) 1 "goldapi" 2 =
      Except.ok ⟨10, -5, 1, "goldapi", 2⟩ :=
  (price_entry_validation_scope 10 (-5) 1 "goldapi" 2).1 (by decide) (by decide)
    (Or.inr rfl)

/-- **C7 (counterexample).**  The claim says a failed persist still leads
to downstream forwarding with the in-memory document.  In a cycle with a
successful BTC fetch, a repository present and `save_price_record`
returning failure, the code only logs the error (`service.py` line 185):
nothing is forwarded to Google Sheets and no Telegram notification is
sent, although the in-memory document was built and the cycle reports
success. -/
theorem persist_failure_skips_forwarding_cex :
    (fetch_and_store_prices
        ⟨14, 0, "2025-10-24", some ⟨100, 0, "coingecko"⟩, none, true, false,
          none, true, true, none, 0⟩ none).builtRecord.isSome = true
    ∧ (fetch_and_store_prices
        ⟨14, 0, "2025-10-24", some ⟨100, 0, "coingecko"⟩, none, true, false,
          none, true, true, none, 0⟩ none).savedRecord.isSome = true
    ∧ (fetch_and_store_prices
        ⟨14, 0, "2025-10-24", some ⟨100, 0, "coingecko"⟩, none, true, false,
          none, true, true, none, 0⟩ none).sheetPayload = none
    ∧ (fetch_and_store_prices
        ⟨14, 0, "2025-10-24", some ⟨100, 0, "coingecko"⟩, none, true, false,
          none, true, true, none, 0⟩ none).telegramHour = none
    ∧ (fetch_and_store_prices
        ⟨14, 0, "2025-10-24", some ⟨100, 0, "coingecko"⟩, none, true, false,
          none, true, true, none, 0⟩ none).response.success = true :=
  ⟨rfl, rfl, rfl, rfl, rfl⟩

/-- **C7 (amended).**  In a cycle with at least one successful fetch:
when no repository handle exists the cycle forwards the in-memory document
and notifies with the current hour; but when a repository is present and
the persist fails, or the post-save readback returns nothing, the cycle
skips forwarding entirely; only a successful persist followed by a
successful readback forwards (and then it forwards the read-back
document). -/
theorem forwarding_conditions (env : CycleEnv) (hOpt : Option Int)
    (hr : env.raised = none)
    (hfetch : env.btcResult.isSome = true ∨ env.xauResult.isSome = true) :
    (env.repoAvailable = false →
      (fetch_and_store_prices env hOpt).sheetPayload =
        (fetch_and_store_prices env hOpt).builtRecord
      ∧ (fetch_and_store_prices env hOpt).telegramHour = some env.nowHour
      ∧ (fetch_and_store_prices env hOpt).builtRecord.isSome = true)
    ∧ (env.repoAvailable = true → env.saveSucceeds = false →
      (fetch_and_store_prices env hOpt).sheetPayload = none
      ∧ (fetch_and_store_prices env hOpt).telegramHour = none)
    ∧ (env.repoAvailable = true → env.saveSucceeds = true →
        env.storedDoc = none →
      (fetch_and_store_prices env hOpt).sheetPayload = none)
    ∧ (∀ doc, env.repoAvailable = true → env.saveSucceeds = true →
        env.storedDoc = some doc →
      (fetch_and_store_prices env hOpt).sheetPayload = some doc
      ∧ (fetch_and_store_prices env hOpt).telegramHour = some env.nowHour) := by
  obtain ⟨nh, nt, ds, br, xr, ra, ss, sd, so, to2, raised, par⟩ := env
  replace hr : raised = none := hr
  subst hr
  replace hfetch : br.isSome = true ∨ xr.isSome = true := hfetch
  rcases br with _ | f <;> rcases xr with _ | g
  · simp at hfetch
  all_goals refine ⟨?_, ?_, ?_, ?_⟩
  all_goals first
  | (intro hra
     subst hra
     exact ⟨rfl, rfl, rfl⟩)
  | (intro hra hss
     subst hra
     subst hss
     exact ⟨rfl, rfl⟩)
  | (intro hra hss hsd
     subst hra
     subst hss
     subst hsd
     rfl)
  | (intro doc hra hss hsd
     subst hra
     subst hss
     subst hsd
     exact ⟨rfl, rfl⟩)

/-- Witness for the amended C7 at a concrete cycle with a repository whose
persist fails: nothing is forwarded. -/
theorem forwarding_conditions_witness :
    (fetch_and_store_prices
        ⟨14, 0, "2025-10-24", some ⟨100, 0, "coingecko"⟩, none, true, false,
          none, true, true, none, 0⟩ (some 10)).sheetPayload = none
    ∧ (fetch_and_store_prices
        ⟨14, 0, "2025-10-24", some ⟨100, 0, "coingecko"⟩, none, true, false,
          none, true, true, none, 0⟩ (some 10)).telegramHour = none :=
  (forwarding_conditions
      ⟨14, 0, "2025-10-24", some ⟨100, 0, "coingecko"⟩, none, true, false,
        none, true, true, none, 0⟩ (some 10) rfl (Or.inl rfl)).2.1 rfl rfl

/-- **C8.**  The cycle's success flag is true exactly when at least one
asset was fetched, independently of every storage and forwarding outcome
(the response is literally unchanged under any values of the repository
availability, save result, readback and both downstream send outcomes);
`records_processed` counts the successful fetches; and when exactly one of
the two adapters fails, the outcome reports one record processed, exactly
the failed asset's single error string, and success. -/
theorem cycle_success_iff_fetched (env : CycleEnv) (hOpt : Option Int)
    (hr : env.raised = none) :
    ((fetch_and_store_prices env hOpt).response.success = true ↔
      (env.btcResult.isSome = true ∨ env.xauResult.isSome = true))
    ∧ (fetch_and_store_prices env hOpt).response.records_processed =
        ((if env.btcResult.isSome then 1 else 0) +
          (if env.xauResult.isSome then 1 else 0))
    ∧ (∀ a2 b c d e2,
        (fetch_and_store_prices
          { env with
              repoAvailable := a2, saveSucceeds := b, storedDoc := c,
              sheetSendOk := d, telegramSendOk := e2 } hOpt).response =
          (fetch_and_store_prices env hOpt).response)
    ∧ (env.btcResult.isSome = true → env.xauResult = none →
        (fetch_and_store_prices env hOpt).response.records_processed = 1
        ∧ (fetch_and_store_prices env hOpt).response.errors =
            ["No se pudo obtener el precio de XAU"]
        ∧ (fetch_and_store_prices env hOpt).response.success = true)
    ∧ (env.xauResult.isSome = true → env.btcResult = none →
        (fetch_and_store_prices env hOpt).response.records_processed = 1
        ∧ (fetch_and_store_prices env hOpt).response.errors =
            ["No se pudo obtener el precio de BTC"]
        ∧ (fetch_and_store_prices env hOpt).response.success = true) := by
  obtain ⟨nh, nt, ds, br, xr, ra, ss, sd, so, to2, raised, par⟩ := env
  replace hr : raised = none := hr
  subst hr
  rcases br with _ | f <;> rcases xr with _ | g
  · refine ⟨by simp [fetch_and_store_prices, runCycle, fetchedPrices], rfl,
      fun _ _ _ _ _ => rfl, ?_, ?_⟩
    · intro h _
      simp at h
    · intro h _
      simp at h
  · refine ⟨by simp [fetch_and_store_prices, runCycle, fetchedPrices], rfl,
      fun _ _ _ _ _ => rfl, ?_, ?_⟩
    · intro h _
      simp at h
    · intro _ _
      exact ⟨rfl, rfl, rfl⟩
  · refine ⟨by simp [fetch_and_store_prices, runCycle, fetchedPrices], rfl,
      fun _ _ _ _ _ => rfl, ?_, ?_⟩
    · intro _ _
      exact ⟨rfl, rfl, rfl⟩
    · intro h hcon
      exact absurd hcon (by simp)
  · refine ⟨by simp [fetch_and_store_prices, runCycle, fetchedPrices], rfl,
      fun _ _ _ _ _ => rfl, ?_, ?_⟩
    · intro _ hcon
      exact absurd hcon (by simp)
    · intro _ hcon
      exact absurd hcon (by simp)

/-- Witness for C8 at a concrete cycle where BTC succeeds and XAU fails:
one record processed, the single XAU error string, success true. -/
theorem cycle_success_iff_fetched_witness :
    (fetch_and_store_prices
        ⟨14, 0, "2025-10-24", some ⟨100, 0, "coingecko"⟩, none, true, true,
          none, true, true, none, 0⟩ none).response.records_processed = 1
    ∧ (fetch_and_store_prices
        ⟨14, 0, "2025-10-24", some ⟨100, 0, "coingecko"⟩, none, true, true,
          none, true, true, none, 0⟩ none).response.errors =
        ["No se pudo obtener el precio de XAU"]
    ∧ (fetch_and_store_prices
        ⟨14, 0, "2025-10-24", some ⟨100, 0, "coingecko"⟩, none, true, true,
          none, true, true, none, 0⟩ none).response.success = true :=
  (cycle_success_iff_fetched
      ⟨14, 0, "2025-10-24", some ⟨100, 0, "coingecko"⟩, none, true, true,
        none, true, true, none, 0⟩ none rfl).2.2.2.1 rfl rfl

/-- **C9.**  The cycle never propagates a raw fault: it is a total function
into structured responses, and whenever an unexpected exception is raised
inside the body and caught by the top-level handler, the returned response
has `success = false` and a single error string that contains the
exception's description (prefixed by the code's fixed text). -/
theorem unexpected_exception_structured_response (env : CycleEnv)
    (hOpt : Option Int) (msg : String) (hr : env.raised = some msg) :
    (fetch_and_store_prices env hOpt).response.success = false
    ∧ (fetch_and_store_prices env hOpt).response.errors =
        ["Error crítico en el servicio: " ++ msg]
    ∧ (fetch_and_store_prices env hOpt).response.message =
        "Error crítico en el proceso" := by
  obtain ⟨nh, nt, ds, br, xr, ra, ss, sd, so, to2, raised, par⟩ := env
  replace hr : raised = some msg := hr
  subst hr
  exact ⟨rfl, rfl, rfl⟩

/-- Witness for C9 at a concrete cycle whose body raises `"boom"`. -/
theorem unexpected_exception_structured_response_witness :
    (fetch_and_store_prices
        ⟨14, 0, "2025-10-24", some ⟨100, 0, "coingecko"⟩, none, true, true,
          none, true, true, some "boom", 1⟩ none).response.success = false
    ∧ (fetch_and_store_prices
        ⟨14, 0, "2025-10-24", some ⟨100, 0, "coingecko"⟩, none, true, true,
          none, true, true, some "boom", 1⟩ none).response.errors =
        ["Error crítico en el servicio: boom"] :=
  ⟨(unexpected_exception_structured_response
      ⟨14, 0, "2025-10-24", some ⟨100, 0, "coingecko"⟩, none, true, true,
        none, true, true, some "boom", 1⟩ none "boom" rfl).1,
   (unexpected_exception_structured_response
      ⟨14, 0, "2025-10-24", some ⟨100, 0, "coingecko"⟩, none, true, true,
        none, true, true, some "boom", 1⟩ none "boom" rfl).2.1⟩

/-- **C10.**  `save_price_record` returns `True` whenever the collection
handle is available and no error escapes the per-entry loop itself,
regardless of how many per-entry upserts failed (their exceptions are
swallowed inside the loop); it returns `False` exactly when the collection
is unavailable or an error escapes the loop. -/
theorem save_price_record_result_flag (avail outerRaise : Bool)
    (entryFails : String → Int → Bool) (record : DailyPriceRecord)
    (db : PricesMap) :
    (savePriceRecord avail outerRaise entryFails record db).1 =
      (avail && !outerRaise) := by
  cases avail <;> cases outerRaise <;> rfl
